import Mathlib

/-!
Shallow embedding of the segregated-free-list memory allocator in `mm.c`.

The heap is modelled as a word-valued memory `Nat → Nat` indexed by byte
address (every access made by the allocator is at an 8-byte aligned
address, so word granularity is faithful).  The segregated free lists are
modelled twice, exactly mirroring the two ways the C code manipulates
them:

* at the state level (`AState`), each bucket is the list of block
  addresses it holds, in `sentinel.next .. sentinel.prev` order; the
  pointer surgery of `insertNode`/`removeNode` appears as appending to /
  erasing from that list (the link words live inside free-block payloads,
  which the allocator never otherwise reads, so this component is kept
  abstract);

* at the pointer level (`LState`), the raw `next`/`prev` fields are
  functions `Nat → Nat` and `insertNode` / the `find_fit` traversal are
  translated write-for-write from the source.

Machine integers are `Nat` with explicit `% 2 ^ 64` (size_t) and
`% 2 ^ 32` (the `(int)` casts in `mm.c`) where overflow or truncation can
matter.
-/

/-- Word size in bytes (`WSIZE` in `mm.c`). -/
def WSIZE : Nat := 8

/-- Doubleword size (`DSIZE`). -/
def DSIZE : Nat := 2 * WSIZE

/-- Heap extension unit (`CHUNKSIZE`). -/
def CHUNKSIZE : Nat := 4096

/-- Number of segregated lists (`NUM_SEGS`). -/
def NUM_SEGS : Nat := 12

/-- One past the largest value of a 64-bit size_t. -/
def W64 : Nat := 2 ^ 64

/-- `ALIGN(size) = ((size) + 7) & ~7` computed on a 64-bit size_t:
truncate the sum to 64 bits and clear the low three bits. -/
def ALIGN (s : Nat) : Nat := (s + 7) % W64 / 8 * 8

/-- `PACK(size, alloc) = size | alloc`.  The allocator only ever packs
8-byte aligned sizes with an alloc bit, for which bitwise or coincides
with addition. -/
def PACK (s a : Nat) : Nat := s + a

/-- `GET_SIZE(p) = GET(p) & ~7`: clear the low three bits of a word.  For
word values (below `2 ^ 64`) the C mask agrees with `w - w % 8`. -/
def GET_SIZE (w : Nat) : Nat := w - w % 8

/-- `GET_ALLOC(p) = GET(p) & 0x1`: the low bit of a word. -/
def GET_ALLOC (w : Nat) : Nat := w % 2

/-- `HDRP(bp) = bp - WSIZE`: address of a block's header. -/
def HDRP (bp : Nat) : Nat := bp - WSIZE

/-- `FTRP(bp) = bp + GET_SIZE(HDRP(bp)) - DSIZE`: address of a block's
footer, computed from the current header contents. -/
def FTRP (m : Nat → Nat) (bp : Nat) : Nat := bp + GET_SIZE (m (HDRP bp)) - DSIZE

/-- `NEXT_BLKP(bp) = bp + GET_SIZE(HDRP(bp))`. -/
def NEXT_BLKP (m : Nat → Nat) (bp : Nat) : Nat := bp + GET_SIZE (m (HDRP bp))

/-- `PREV_BLKP(bp) = bp - GET_SIZE(bp - DSIZE)` (reads the previous
block's footer). -/
def PREV_BLKP (m : Nat → Nat) (bp : Nat) : Nat := bp - GET_SIZE (m (bp - DSIZE))

/-- `PUT(p, val)` as a functional update of the memory. -/
def updW (m : Nat → Nat) (a v : Nat) : Nat → Nat := fun x => if x = a then v else m x

/-- The value of `(size_t)(int)(n)` for a 64-bit size_t value `n`:
truncate to 32 bits, then sign-extend back to 64 bits. -/
def int_cast (n : Nat) : Nat :=
  if n % 2 ^ 32 < 2 ^ 31 then n % 2 ^ 32 else 2 ^ 64 - 2 ^ 32 + n % 2 ^ 32

/-- Fuel-driven floor base-2 logarithm; `ilog2Go fuel n` computes
`Nat.log 2 n` whenever `n < 2 ^ fuel`.  Structural recursion so that
proofs can evaluate it on concrete inputs. -/
def ilog2Go : Nat → Nat → Nat
  | 0, _ => 0
  | fuel + 1, n => if n ≤ 1 then 0 else ilog2Go fuel (n / 2) + 1

/-- `LOG2(i) = 31 - __builtin_clz(i)`, the floor base-2 logarithm of the
32-bit argument.  `mm.c` applies it to `(int)(asize)`, so the argument is
the size truncated to 32 bits; the model keeps 64 fuel, enough for any
word value. -/
def ilog2 (n : Nat) : Nat := ilog2Go 64 n

/-- Bucket index computed by `get_free_list_head` and `find_fit`:
`idx = LOG2((int)size) - 5`, clamped to `NUM_SEGS - 1` from above.  The
`(int)` cast truncates the size to 32 bits.  (For sizes below 32 the C
code would produce a negative index and index out of bounds; `Nat`
subtraction clamps this at 0, which is unreachable for real block
sizes.) -/
def seg_index (sz : Nat) : Nat :=
  let idx := ilog2 (sz % 2 ^ 32) - 5
  if NUM_SEGS ≤ idx then NUM_SEGS - 1 else idx

/-- Allocator state: word memory, the contents of the twelve buckets (in
`sentinel.next .. sentinel.prev` order; only indices `0..11` are used),
the current break, and the fixed bound past which `mem_sbrk` fails.

Modelled from the spec: the collaborator `extend_region` (`mem_sbrk` of
`memlib`, not part of this repository's sources) grows the heap
monotonically at its high end, returning the old break, and signals
failure with a sentinel value; it is modelled by `brk` together with the
hard bound `limit`. -/
structure AState where
  mem : Nat → Nat
  bkts : Nat → List Nat
  brk : Nat
  limit : Nat

/-- `removeNode(bp)`: unlink `bp` from whatever bucket holds it.  At the
list level this erases the address from every bucket (it occurs in at
most one). -/
def removeNodeS (bkts : Nat → List Nat) (bp : Nat) : Nat → List Nat :=
  fun i => (bkts i).erase bp

/-- `insertNode(bp)`: find the bucket for `GET_SIZE(HDRP(bp))` and splice
`bp` in immediately before the sentinel, i.e. at the tail of the bucket's
list. -/
def insertNodeS (m : Nat → Nat) (bkts : Nat → List Nat) (bp : Nat) : Nat → List Nat :=
  fun i => if i = seg_index (GET_SIZE (m (HDRP bp))) then bkts i ++ [bp] else bkts i

/-- The `find_block` loop over one bucket, at the list level: scan the
nodes in `sentinel.next` order; return the first whose header size fits,
give up after the iteration counter reaches 50, and return nothing when
the scan wraps back to the sentinel (the end of the list). -/
def findBlockS (m : Nat → Nat) (asize : Nat) : List Nat → Nat → Option Nat
  | [], _ => none
  | cur :: rest, it =>
      if asize ≤ GET_SIZE (m (HDRP cur)) then some cur
      else if it = 50 then none
      else findBlockS m asize rest (it + 1)

/-- The bucket scan of `find_fit`: walk the remaining bucket indices in
increasing order, skip empty buckets, and query `find_block` on each
non-empty one. -/
def findFitGoS (m : Nat → Nat) (bkts : Nat → List Nat) (asize : Nat) : List Nat → Option Nat
  | [] => none
  | i :: rest =>
      if bkts i ≠ [] then
        match findBlockS m asize (bkts i) 0 with
        | some b => some b
        | none => findFitGoS m bkts asize rest
      else findFitGoS m bkts asize rest

/-- `find_fit(asize)`: start from the bucket for `asize` and scan upward
through bucket `NUM_SEGS - 1`. -/
def find_fit_S (σ : AState) (asize : Nat) : Option Nat :=
  findFitGoS σ.mem σ.bkts asize ((List.range NUM_SEGS).drop (seg_index asize))

/-- Minimum block size used by `place` (and `mm_malloc`):
`2 * WSIZE + sizeof(struct pointers) = 32`. -/
def place_min_block : Nat := 2 * WSIZE + 16

/-- `place(bp, asize)`: remove `bp` from its bucket; if the slack
`csize - asize` can hold a minimum block, stamp `bp` allocated with size
`asize`, carve a free remainder block after it and insert the remainder
into its bucket; otherwise stamp `bp` allocated with the whole `csize`. -/
def place_S (σ : AState) (bp asize : Nat) : AState :=
  let csize := GET_SIZE (σ.mem (HDRP bp))
  let bkts1 := removeNodeS σ.bkts bp
  if place_min_block ≤ csize - asize then
    let m1 := updW σ.mem (HDRP bp) (PACK asize 1)
    let m2 := updW m1 (FTRP m1 bp) (PACK asize 1)
    let bp2 := NEXT_BLKP m2 bp
    let m3 := updW m2 (HDRP bp2) (PACK (csize - asize) 0)
    let m4 := updW m3 (FTRP m3 bp2) (PACK (csize - asize) 0)
    { σ with mem := m4, bkts := insertNodeS m4 bkts1 bp2 }
  else
    let m1 := updW σ.mem (HDRP bp) (PACK csize 1)
    let m2 := updW m1 (FTRP m1 bp) (PACK csize 1)
    { σ with mem := m2, bkts := bkts1 }

/-- `coalesce(bp)`: boundary-tag coalescing of a newly freed block with
its free physical neighbors, with the four cases and the exact read/write
order of the source. -/
def coalesce_S (σ : AState) (bp : Nat) : Nat × AState :=
  let m := σ.mem
  let size := GET_SIZE (m (HDRP bp))
  let prev_alloc := GET_ALLOC (m (FTRP m (PREV_BLKP m bp)))
  let next_alloc := GET_ALLOC (m (HDRP (NEXT_BLKP m bp)))
  if prev_alloc ≠ 0 ∧ next_alloc ≠ 0 then
    (bp, { σ with bkts := insertNodeS m σ.bkts bp })
  else if prev_alloc ≠ 0 ∧ next_alloc = 0 then
    let bkts1 := removeNodeS σ.bkts (NEXT_BLKP m bp)
    let size2 := size + GET_SIZE (m (HDRP (NEXT_BLKP m bp)))
    let m1 := updW m (HDRP bp) (PACK size2 0)
    let m2 := updW m1 (FTRP m1 bp) (PACK size2 0)
    (bp, { σ with mem := m2, bkts := insertNodeS m2 bkts1 bp })
  else if prev_alloc = 0 ∧ next_alloc ≠ 0 then
    let bkts1 := removeNodeS σ.bkts (PREV_BLKP m bp)
    let size2 := size + GET_SIZE (m (HDRP (PREV_BLKP m bp)))
    let m1 := updW m (HDRP (PREV_BLKP m bp)) (PACK size2 0)
    let m2 := updW m1 (FTRP m1 bp) (PACK size2 0)
    let bp2 := PREV_BLKP m2 bp
    (bp2, { σ with mem := m2, bkts := insertNodeS m2 bkts1 bp2 })
  else
    let bkts1 := removeNodeS (removeNodeS σ.bkts (NEXT_BLKP m bp)) (PREV_BLKP m bp)
    let size2 := size + (GET_SIZE (m (HDRP (PREV_BLKP m bp))) +
      GET_SIZE (m (FTRP m (NEXT_BLKP m bp))))
    let m1 := updW m (HDRP (PREV_BLKP m bp)) (PACK size2 0)
    let m2 := updW m1 (FTRP m1 (NEXT_BLKP m1 bp)) (PACK size2 0)
    let bp2 := PREV_BLKP m2 bp
    (bp2, { σ with mem := m2, bkts := insertNodeS m2 bkts1 bp2 })

/-- `extend_heap(words)`: round up to an even number of words, grow the
region (failure returns nothing and leaves the state to the caller
unchanged), write the new free block's header and footer and the new
epilogue header, and coalesce with the old tail. -/
def extend_heap_S (σ : AState) (words : Nat) : Option (Nat × AState) :=
  let size := if words % 2 = 1 then (words + 1) * WSIZE else words * WSIZE
  if σ.limit < σ.brk + size then none
  else
    let bp := σ.brk
    let m1 := updW σ.mem (HDRP bp) (PACK size 0)
    let m2 := updW m1 (FTRP m1 bp) (PACK size 0)
    let m3 := updW m2 (HDRP (NEXT_BLKP m2 bp)) (PACK 0 1)
    some (coalesce_S { σ with mem := m3, brk := σ.brk + size } bp)

/-- `mm_malloc(size)`.  The null pointer is address 0. -/
def mm_malloc_S (σ : AState) (size : Nat) : Nat × AState :=
  if size = 0 then (0, σ)
  else
    let asize := if size ≤ DSIZE then 2 * WSIZE + 16 else (ALIGN size + 2 * WSIZE) % W64
    match find_fit_S σ asize with
    | some bp => (bp, place_S σ bp asize)
    | none =>
      let extendsize := max asize CHUNKSIZE
      match extend_heap_S σ (extendsize / WSIZE) with
      | none => (0, σ)
      | some (bp, σ1) => (bp, place_S σ1 bp asize)

/-- `mm_free(bp)`: ignore the null pointer, rewrite header and footer
with the alloc bit cleared, coalesce. -/
def mm_free_S (σ : AState) (bp : Nat) : AState :=
  if bp = 0 then σ
  else
    let size := GET_SIZE (σ.mem (HDRP bp))
    let m1 := updW σ.mem (HDRP bp) (PACK size 0)
    let m2 := updW m1 (FTRP m1 bp) (PACK size 0)
    (coalesce_S { σ with mem := m2 } bp).2

/-- `memcpy(dst, src, len)` on word memory.  Every copy the allocator
performs has 8-byte aligned addresses and length, and either disjoint or
identical ranges, for which this snapshot semantics agrees with C's. -/
def memcpyW (m : Nat → Nat) (dst src len : Nat) : Nat → Nat :=
  fun x => if dst ≤ x ∧ x < dst + len ∧ (x - dst) % 8 = 0 then m (src + (x - dst)) else m x

/-- Minimum block size used by `mm_realloc` (line 309):
`(2 * DSIZE) + sizeof(struct pointers) = 48` - note `DSIZE`, not `WSIZE`,
so this constant is 48, not the allocator's 32-byte minimum block. -/
def realloc_min_block : Nat := 2 * DSIZE + 16

/-- Number of bytes the realloc slow path copies:
`newsize = ALIGN((int)(2 * size)); newsize += DSIZE; memcpy(..., newsize - DSIZE)`,
that is `ALIGN((int)(2 * size))` bytes. -/
def realloc_slow_copy_len (size : Nat) : Nat := ALIGN (int_cast (2 * size % W64))

/-- `mm_realloc(ptr, size)`, translated branch by branch: free on size 0,
malloc on a null pointer, in-place return when the adjusted size does not
exceed the stored size, the two in-place growth fast paths, and the
over-allocating slow path (whose inner `mm_malloc` result is used
unchecked, exactly as in the source). -/
def mm_realloc_S (σ : AState) (ptr size : Nat) : Nat × AState :=
  let oldsize := GET_SIZE (σ.mem (HDRP ptr))
  if size = 0 then (0, mm_free_S σ ptr)
  else
    let newsize := if size ≤ DSIZE then 2 * WSIZE + 16 else (ALIGN size + DSIZE) % W64
    if ptr = 0 then mm_malloc_S σ size
    else if newsize ≤ oldsize then (ptr, σ)
    else if GET_ALLOC (σ.mem (HDRP (PREV_BLKP σ.mem ptr))) = 0 ∧
        newsize - oldsize ≤ GET_SIZE (σ.mem (HDRP (PREV_BLKP σ.mem ptr))) then
      let fbo := GET_SIZE (σ.mem (HDRP (PREV_BLKP σ.mem ptr)))
      let newptr := PREV_BLKP σ.mem ptr
      let bkts1 := removeNodeS σ.bkts newptr
      let m1 := updW σ.mem (HDRP newptr) (PACK (fbo + oldsize) 1)
      let m2 := updW m1 (FTRP m1 newptr) (PACK (fbo + oldsize) 1)
      let m3 := memcpyW m2 newptr ptr (oldsize - DSIZE)
      (newptr, { σ with mem := m3, bkts := bkts1 })
    else if GET_ALLOC (σ.mem (HDRP (NEXT_BLKP σ.mem ptr))) = 0 ∧
        (newsize - oldsize ≤ GET_SIZE (σ.mem (HDRP (NEXT_BLKP σ.mem ptr))) ∧
         realloc_min_block < GET_SIZE (σ.mem (HDRP (NEXT_BLKP σ.mem ptr)))) then
      let fbo := GET_SIZE (σ.mem (HDRP (NEXT_BLKP σ.mem ptr)))
      let bkts1 := removeNodeS σ.bkts (NEXT_BLKP σ.mem ptr)
      if realloc_min_block ≤ fbo - (newsize - oldsize) then
        let m1 := updW σ.mem (HDRP ptr) (PACK newsize 1)
        let m2 := updW m1 (FTRP m1 ptr) (PACK newsize 1)
        let m3 := memcpyW m2 ptr ptr (newsize - DSIZE)
        let next2 := NEXT_BLKP m3 ptr
        let m4 := updW m3 (HDRP next2) (PACK (fbo - (newsize - oldsize)) 0)
        let m5 := updW m4 (FTRP m4 next2) (PACK (fbo - (newsize - oldsize)) 0)
        (ptr, { σ with mem := m5, bkts := insertNodeS m5 bkts1 next2 })
      else
        let m1 := updW σ.mem (HDRP ptr) (PACK (oldsize + fbo) 1)
        let m2 := updW m1 (FTRP m1 ptr) (PACK (oldsize + fbo) 1)
        let m3 := memcpyW m2 ptr ptr (fbo + oldsize - DSIZE)
        (ptr, { σ with mem := m3, bkts := bkts1 })
    else
      let r := mm_malloc_S σ (int_cast (2 * size % W64))
      let m1 := memcpyW r.2.mem r.1 ptr (realloc_slow_copy_len size)
      let σ2 := mm_free_S { r.2 with mem := m1 } ptr
      (r.1, σ2)

/-- Raw next/prev pointer fields of the free-list nodes and sentinels, as
two word-valued functions over node addresses. -/
structure LState where
  nxt : Nat → Nat
  prv : Nat → Nat

/-- `insertNode(bp)` at the pointer level, write for write:
`list_head->prev->next = bp; bp->prev = list_head->prev;
list_head->prev = bp; bp->next = list_head;`. -/
def insertNode_P (L : LState) (head bp : Nat) : LState :=
  let L1 : LState := { L with nxt := updW L.nxt (L.prv head) bp }
  let L2 : LState := { L1 with prv := updW L1.prv bp (L1.prv head) }
  let L3 : LState := { L2 with prv := updW L2.prv head bp }
  { L3 with nxt := updW L3.nxt bp head }

/-- The do-while loop of `find_block`, at the pointer level.  `fuel`
counts down from 51 so that the test `fuel = 0` fires exactly when the
source's iteration counter reaches 50. -/
def find_block_go (nx m : Nat → Nat) (list asize : Nat) : Nat → Nat → Option Nat
  | _, 0 => none
  | cur, fuel + 1 =>
      if asize ≤ GET_SIZE (m (HDRP cur)) then some cur
      else if fuel = 0 then none
      else if nx cur = list then none
      else find_block_go nx m list asize (nx cur) fuel

/-- The node addresses whose header word the `find_block` loop reads, in
order: the loop reads `GET_SIZE(HDRP(cur))` once per visited node, before
advancing and testing the wrap-around against the sentinel. -/
def find_block_reads (nx m : Nat → Nat) (list asize : Nat) : Nat → Nat → List Nat
  | _, 0 => []
  | cur, fuel + 1 =>
      cur :: (if asize ≤ GET_SIZE (m (HDRP cur)) then []
        else if fuel = 0 then []
        else if nx cur = list then []
        else find_block_reads nx m list asize (nx cur) fuel)

/-- `find_block(list, asize)`: start the scan at `list->next`. -/
def find_block_P (L : LState) (m : Nat → Nat) (list asize : Nat) : Option Nat :=
  find_block_go L.nxt m list asize (L.nxt list) 51

/-- The bucket scan of `find_fit` at the pointer level: walk the given
bucket indices in order; a bucket is scanned only when its sentinel's
`next` field does not point back to the sentinel (the non-empty test of
the source). -/
def find_fit_go (L : LState) (m : Nat → Nat) (sent : Nat → Nat) (asize : Nat) :
    List Nat → Option Nat
  | [] => none
  | i :: rest =>
      if L.nxt (sent i) ≠ sent i then
        match find_block_P L m (sent i) asize with
        | some b => some b
        | none => find_fit_go L m sent asize rest
      else find_fit_go L m sent asize rest

/-- `find_fit(asize)` at the pointer level, over sentinel addresses
`sent 0 .. sent 11`. -/
def find_fit_P (L : LState) (m : Nat → Nat) (sent : Nat → Nat) (asize : Nat) : Option Nat :=
  find_fit_go L m sent asize ((List.range NUM_SEGS).drop (seg_index asize))

/-- `chain f a xs b`: starting from `a`, the function `f` steps through
the elements of `xs` in order and then reaches `b`. -/
def chain (f : Nat → Nat) : Nat → List Nat → Nat → Prop
  | a, [], b => f a = b
  | a, x :: xs, b => f a = x ∧ chain f x xs b

/-- Decision procedure for `chain`. -/
def chainDec (f : Nat → Nat) (a : Nat) (xs : List Nat) (b : Nat) : Decidable (chain f a xs b) :=
  match xs with
  | [] => Nat.decEq (f a) b
  | x :: xs' => @instDecidableAnd _ _ (Nat.decEq (f a) x) (chainDec f x xs' b)

instance (f : Nat → Nat) (a : Nat) (xs : List Nat) (b : Nat) : Decidable (chain f a xs b) :=
  chainDec f a xs b

/-- A bucket with sentinel `s` currently holds exactly the nodes `xs`, in
`next` order: the `next` fields cycle `s, xs..., s`, the `prev` fields
cycle backwards, and all addresses are distinct. -/
def bucketRep (L : LState) (s : Nat) (xs : List Nat) : Prop :=
  chain L.nxt s xs s ∧ chain L.prv s xs.reverse s ∧ (s :: xs).Nodup

instance (L : LState) (s : Nat) (xs : List Nat) : Decidable (bucketRep L s xs) :=
  inferInstanceAs (Decidable (_ ∧ _ ∧ _))

/-- Head of a list, with a default for the empty list. -/
def headD : List Nat → Nat → Nat
  | [], d => d
  | x :: _, _ => x

/-- Last element of `a :: xs`. -/
def lastD (a : Nat) : List Nat → Nat
  | [] => a
  | x :: xs => lastD x xs

/-- Build a word memory from an association list of (address, value)
pairs; unlisted addresses hold 0. -/
def mkMem (l : List (Nat × Nat)) : Nat → Nat := fun x => (List.lookup x l).getD 0

/-- A fully allocated 88-byte heap at its sbrk limit: prologue, two
allocated 32-byte blocks at payload addresses 24 and 56, epilogue.  All
buckets are empty, so any allocation must extend the heap and fails. -/
def stFull : AState :=
  { mem := mkMem [(0, 17), (8, 17), (16, 33), (40, 33), (48, 33), (72, 33), (80, 1)]
    bkts := fun _ => []
    brk := 88
    limit := 88 }

/-- A heap with an allocated 48-byte block at 24 (the realloc target), an
allocated 48-byte neighbor at 72, an allocated 256-byte block at 120, and
a free 4096-byte block at 376 sitting in bucket 7. -/
def stBigFree : AState :=
  { mem := mkMem [(0, 17), (8, 17), (16, 49), (56, 49), (64, 49), (104, 49),
                  (112, 257), (360, 257), (368, 4096), (4456, 4096), (4464, 1)]
    bkts := fun i => if i = 7 then [376] else []
    brk := 4472
    limit := 4472 }

/-- A heap where the realloc target at 24 (32 bytes, allocated) has a
free 32-byte next neighbor at 56 (bucket 0), an allocated 32-byte block
at 88, and a free 4096-byte block at 120 (bucket 7). -/
def stSmallNext : AState :=
  { mem := mkMem [(0, 17), (8, 17), (16, 33), (40, 33), (48, 32), (72, 32),
                  (80, 33), (104, 33), (112, 4096), (4200, 4096), (4208, 1)]
    bkts := fun i => if i = 0 then [56] else if i = 7 then [120] else []
    brk := 4216
    limit := 4216 }

/-- A heap where the realloc target at 24 (32 bytes, allocated) has a
free 56-byte next neighbor at 56 (bucket 0, large enough for fast path B
with a splittable residue), then an allocated 32-byte block at 112 and
the epilogue. -/
def stB : AState :=
  { mem := mkMem [(0, 17), (8, 17), (16, 33), (40, 33), (48, 56), (96, 56),
                  (104, 33), (128, 33), (136, 1)]
    bkts := fun i => if i = 0 then [56] else []
    brk := 144
    limit := 144 }

/-- A heap with a newly freed 32-byte block at 120 whose physical
neighbors at 88 and 152 are both free 32-byte blocks sitting in
bucket 0. -/
def stCoal : AState :=
  { mem := mkMem [(80, 32), (104, 32), (112, 32), (136, 32), (144, 32), (168, 32)]
    bkts := fun i => if i = 0 then [88, 152] else []
    brk := 0
    limit := 0 }

/-- A heap with a single free 4096-byte block at 24, in bucket 7. -/
def stOneFree : AState :=
  { mem := mkMem [(0, 17), (8, 17), (16, 4096), (4104, 4096), (4112, 1)]
    bkts := fun i => if i = 7 then [24] else []
    brk := 4120
    limit := 4120 }

/-- A tiny state whose only content is an allocated 48-byte block at
payload address 24. -/
def stOneAlloc : AState :=
  { mem := mkMem [(16, 49)]
    bkts := fun _ => []
    brk := 0
    limit := 0 }

/-- A populated bucket for the pointer-level model: sentinel 1000 holds
the two nodes 2000 and 2024 in a circular doubly-linked list. -/
def LC8 : LState :=
  { nxt := updW (updW (updW (fun x => x) 1000 2000) 2000 2024) 2024 1000
    prv := updW (updW (updW (fun x => x) 1000 2024) 2024 2000) 2000 1000 }

/-- Sentinel addresses for the pointer-level `find_fit` witness. -/
def sentC10 : Nat → Nat := fun i => 1000 + 16 * i

/-- Pointer-level list state for the `find_fit` witness: every bucket is
empty (each sentinel's next points to itself, the base function is the
identity) except bucket 2, whose sentinel 1032 holds 2000 and 2024. -/
def LC10 : LState :=
  { nxt := updW (updW (updW (fun x => x) 1032 2000) 2000 2024) 2024 1032
    prv := fun x => x }

/-- Header words for the `find_fit` witness: the block at 2000 stores
size 40, the block at 2024 stores size 120. -/
def memC10 : Nat → Nat := mkMem [(1992, 40), (2016, 120)]

/-- Bucket contents for the `find_fit` witness. -/
def LsC10 : Nat → List Nat := fun i => if i = 2 then [2000, 2024] else []

theorem updW_self (m : Nat → Nat) (a v : Nat) : updW m a v a = v := by
  simp [updW]

theorem updW_ne (m : Nat → Nat) (a v x : Nat) (h : x ≠ a) : updW m a v x = m x := by
  simp [updW, h]

theorem GET_SIZE_PACK (s a : Nat) (h8 : s % 8 = 0) (ha : a ≤ 1) :
    GET_SIZE (PACK s a) = s := by
  unfold GET_SIZE PACK
  omega

theorem GET_ALLOC_PACK (s a : Nat) (h8 : s % 8 = 0) (ha : a ≤ 1) :
    GET_ALLOC (PACK s a) = a := by
  unfold GET_ALLOC PACK
  omega

theorem memcpyW_self (m : Nat → Nat) (p len : Nat) : memcpyW m p p len = m := by
  funext x
  unfold memcpyW
  split
  · next h => have hx : p + (x - p) = x := by omega
              rw [hx]
  · rfl

/-- C1: `realloc(nothing, n)` is `alloc(n)`: with a null block pointer,
`mm_realloc` returns the same value and the same allocator state as a
direct `mm_malloc` call, for every requested size `n` (including `n = 0`,
where both return null and leave the state unchanged). -/
theorem realloc_null_is_malloc (σ : AState) (n : Nat) :
    mm_realloc_S σ 0 n = mm_malloc_S σ n := by
  by_cases h : n = 0
  · subst h
    simp [mm_realloc_S, mm_malloc_S, mm_free_S]
  · simp [mm_realloc_S, h]

/-- C2: on the realloc slow path, a failing inner allocation is NOT
handled: at `stFull` (sbrk exhausted, no free block) `mm_realloc 24 48`
does return the failure value 0, but instead of leaving the block at 24
untouched it copies through the null pointer and frees the block - its
header word changes and its allocated bit is cleared.  This contradicts
the routine's own contract of returning the address of a (new) block on
success and NULL otherwise while the old block stays valid. -/
theorem realloc_oom_clobbers_block :
    (mm_realloc_S stFull 24 48).1 = 0 ∧
    GET_ALLOC (stFull.mem (HDRP 24)) = 1 ∧
    GET_ALLOC ((mm_realloc_S stFull 24 48).2.mem (HDRP 24)) = 0 ∧
    (mm_realloc_S stFull 24 48).2.mem (HDRP 24) ≠ stFull.mem (HDRP 24) := by
  decide

/-- C3: the realloc slow path copies `ALIGN(2 * size)` bytes, not
`oldsize - 2 * WORD`: at `stBigFree` the old block at 24 stores size 48
(payload 32 bytes), yet `mm_realloc 24 100` copies 200 bytes - the word
40 bytes into the new block at 376 receives the header word of the
allocated neighbor at 72, which lies beyond the old block's payload and
footer. -/
theorem realloc_slowpath_overcopies :
    GET_SIZE (stBigFree.mem (HDRP 24)) = 48 ∧
    realloc_slow_copy_len 100 = 200 ∧
    ¬ realloc_slow_copy_len 100 = 48 - 16 ∧
    (mm_realloc_S stBigFree 24 100).1 = 376 ∧
    (mm_realloc_S stBigFree 24 100).2.mem (376 + 40) = stBigFree.mem (24 + 40) ∧
    stBigFree.mem (24 + 40) = 49 := by
  decide

/-- C4 counterexample: at `stSmallNext` with `mm_realloc 24 48` all the
claim's conditions for fast path B hold (newsize 64 is larger than
oldsize 32, the previous neighbor is allocated so fast path A does not
apply, the next neighbor is free and its size 32 equals
`newsize - oldsize`), yet the code does not take fast path B - it demands
`size(next) > 48` - and instead moves the block: the returned address is
120, not 24. -/
theorem fastpathB_condition_cex :
    (GET_SIZE (stSmallNext.mem (HDRP 24)) < (ALIGN 48 + DSIZE) % W64 ∧
     GET_ALLOC (stSmallNext.mem (HDRP (PREV_BLKP stSmallNext.mem 24))) = 1 ∧
     GET_ALLOC (stSmallNext.mem (HDRP (NEXT_BLKP stSmallNext.mem 24))) = 0 ∧
     (ALIGN 48 + DSIZE) % W64 - GET_SIZE (stSmallNext.mem (HDRP 24)) ≤
       GET_SIZE (stSmallNext.mem (HDRP (NEXT_BLKP stSmallNext.mem 24)))) ∧
    (mm_realloc_S stSmallNext 24 48).1 ≠ 24 := by
  decide

/-- C6 counterexample: `place` with the aligned request `asize = 0` (and
`csize = 4096`, so the claim's `asize ≤ csize` holds and the split branch
is taken) does not leave the block at 24 marked allocated: the remainder
block is installed at `bp + 0 = bp` itself and overwrites the freshly
written allocated header, so the final header of 24 has a clear allocated
bit. -/
theorem place_asize_zero_cex :
    ((0 : Nat) % 8 = 0 ∧ 0 ≤ GET_SIZE (stOneFree.mem (HDRP 24)) ∧ 24 ∈ stOneFree.bkts 7) ∧
    ¬ GET_ALLOC ((place_S stOneFree 24 0).mem (HDRP 24)) = 1 := by
  decide

/-- C9 counterexample: at `stBigFree` the block at 24 stores size 48, but
`mm_realloc 24 48` - reallocation to the stored size - does not return
24: the adjusted newsize `ALIGN(48) + 16 = 64` exceeds the stored size,
both fast paths fail, and the slow path moves the block to 376. -/
theorem realloc_stored_size_moves_cex :
    GET_SIZE (stBigFree.mem (HDRP 24)) = 48 ∧
    (mm_realloc_S stBigFree 24 48).1 ≠ 24 := by
  decide

/-- C8 counterexample: for the (8-byte aligned) stored size
`s = 2 ^ 32 + 64 ≥ 32` the code's bucket index is 1, because the
`(int)` cast in `get_free_list_head` truncates the size to 32 bits before
taking the logarithm, while `min(log2 s - 5, N - 1) = 11`; inserting a
free block with that header lands it in bucket 1 and not in bucket 11. -/
theorem bucket_index_overflow_cex :
    (32 ≤ 2 ^ 32 + 64 ∧ (2 ^ 32 + 64) % 8 = 0) ∧
    seg_index (2 ^ 32 + 64) = 1 ∧
    min (Nat.log 2 (2 ^ 32 + 64) - 5) 11 = 11 ∧
    insertNodeS (mkMem [(16, 2 ^ 32 + 64)]) (fun _ => []) 24 1 = [24] ∧
    insertNodeS (mkMem [(16, 2 ^ 32 + 64)]) (fun _ => []) 24 11 = [] := by
  refine ⟨by norm_num, by decide, ?_, by decide, by decide⟩
  have h : Nat.log 2 (2 ^ 32 + 64) = 32 :=
    Nat.log_eq_of_pow_le_of_lt_pow (by norm_num) (by norm_num)
  rw [h]
  decide

/-- C9 (amended): `mm_realloc` returns the pointer itself and leaves the
state unchanged exactly when the adjusted request
`align8(size) + 2 * WORD` (or the 32-byte minimum for tiny requests) does
not exceed the stored block size - in particular for any request up to
the payload size `size_of(p) - 2 * WORD`.  Reallocation to the stored
size itself exceeds this bound and may move the block. -/
theorem realloc_within_size_identity (σ : AState) (p s : Nat) (hp : p ≠ 0) (hs : s ≠ 0)
    (h : (if s ≤ DSIZE then 2 * WSIZE + 16 else (ALIGN s + DSIZE) % W64) ≤
      GET_SIZE (σ.mem (HDRP p))) :
    mm_realloc_S σ p s = (p, σ) := by
  simp [mm_realloc_S, hs, hp, h]

/-- Witness for `realloc_within_size_identity`: the allocated 48-byte
block at 24 of `stOneAlloc`, reallocated to 17 bytes (adjusted size 40),
is returned unchanged. -/
theorem realloc_within_size_identity_witness :
    mm_realloc_S stOneAlloc 24 17 = (24, stOneAlloc) :=
  realloc_within_size_identity stOneAlloc 24 17 (by decide) (by decide) (by decide)


/-- C6 (amended): for a free block of size `csize` in a bucket and any
aligned, positive `asize ≤ csize`, `place` removes the block from its
bucket; when the slack is at least `MIN_BLOCK` it stamps the block
allocated with size `asize` in header and footer, writes a free block of
size `csize - asize` at `bp + asize` (header and footer) and inserts that
remainder into the bucket for its size; otherwise it stamps the whole
`csize` allocated. -/
theorem place_spec (σ : AState) (bp csize asize : Nat)
    (hhdr : σ.mem (HDRP bp) = PACK csize 0)
    (hc8 : csize % 8 = 0) (hc32 : 32 ≤ csize)
    (ha8 : asize % 8 = 0) (ha0 : 0 < asize) (hac : asize ≤ csize)
    (hbp : 16 ≤ bp)
    (hcnt : ∀ i, i < 12 → (σ.bkts i).count bp ≤ 1) :
    (∀ i, i < 12 → ((place_S σ bp asize).bkts i).count bp = 0) ∧
    (32 ≤ csize - asize →
      (place_S σ bp asize).mem (HDRP bp) = PACK asize 1 ∧
      (place_S σ bp asize).mem (bp + asize - 16) = PACK asize 1 ∧
      (place_S σ bp asize).mem (HDRP (bp + asize)) = PACK (csize - asize) 0 ∧
      (place_S σ bp asize).mem (bp + csize - 16) = PACK (csize - asize) 0 ∧
      bp + asize ∈ (place_S σ bp asize).bkts (seg_index (csize - asize))) ∧
    (csize - asize < 32 →
      (place_S σ bp asize).mem (HDRP bp) = PACK csize 1 ∧
      (place_S σ bp asize).mem (bp + csize - 16) = PACK csize 1) := by
  have ha1 : 8 ≤ asize := by omega
  have e1 : HDRP bp = bp - 8 := rfl
  have hhdr' : σ.mem (bp - 8) = PACK csize 0 := hhdr
  have hcs : GET_SIZE (σ.mem (bp - 8)) = csize := by
    rw [hhdr']; exact GET_SIZE_PACK _ _ hc8 (by omega)
  by_cases hsplit : place_min_block ≤ csize - asize
  · -- split branch
    have hmb : (32 : Nat) ≤ csize - asize := hsplit
    have e2 : FTRP (updW σ.mem (bp - 8) (PACK asize 1)) bp = bp + asize - 16 := by
      unfold FTRP
      rw [e1, updW_self, GET_SIZE_PACK _ _ ha8 (by omega)]
      rfl
    have e3 : NEXT_BLKP (updW (updW σ.mem (bp - 8) (PACK asize 1))
        (bp + asize - 16) (PACK asize 1)) bp = bp + asize := by
      unfold NEXT_BLKP
      rw [e1]
      have hv : updW (updW σ.mem (bp - 8) (PACK asize 1))
          (bp + asize - 16) (PACK asize 1) (bp - 8) = PACK asize 1 := by
        by_cases h : (bp : Nat) - 8 = bp + asize - 16
        · rw [h, updW_self]
        · rw [updW_ne _ _ _ _ h, updW_self]
      rw [hv, GET_SIZE_PACK _ _ ha8 (by omega)]
    have e4 : HDRP (bp + asize) = bp + asize - 8 := rfl
    have e5 : FTRP (updW (updW (updW σ.mem (bp - 8) (PACK asize 1))
        (bp + asize - 16) (PACK asize 1)) (bp + asize - 8) (PACK (csize - asize) 0))
        (bp + asize) = bp + csize - 16 := by
      unfold FTRP
      rw [e4, updW_self, GET_SIZE_PACK _ _ (by omega) (by omega)]
      show bp + asize + (csize - asize) - DSIZE = _
      have : DSIZE = 16 := rfl
      omega
    have hstate : place_S σ bp asize =
        { σ with
          mem := updW (updW (updW (updW σ.mem (bp - 8) (PACK asize 1))
            (bp + asize - 16) (PACK asize 1)) (bp + asize - 8) (PACK (csize - asize) 0))
            (bp + csize - 16) (PACK (csize - asize) 0)
          bkts := insertNodeS
            (updW (updW (updW (updW σ.mem (bp - 8) (PACK asize 1))
              (bp + asize - 16) (PACK asize 1)) (bp + asize - 8) (PACK (csize - asize) 0))
              (bp + csize - 16) (PACK (csize - asize) 0))
            (removeNodeS σ.bkts bp) (bp + asize) } := by
      simp only [place_S, e1]
      rw [hcs, if_pos hsplit, e2, e3, e4, e5]
    have hmem : (place_S σ bp asize).mem = updW (updW (updW (updW σ.mem (bp - 8)
        (PACK asize 1)) (bp + asize - 16) (PACK asize 1)) (bp + asize - 8)
        (PACK (csize - asize) 0)) (bp + csize - 16) (PACK (csize - asize) 0) := by
      rw [hstate]
    have hbkts : (place_S σ bp asize).bkts = insertNodeS
        (updW (updW (updW (updW σ.mem (bp - 8) (PACK asize 1))
          (bp + asize - 16) (PACK asize 1)) (bp + asize - 8) (PACK (csize - asize) 0))
          (bp + csize - 16) (PACK (csize - asize) 0))
        (removeNodeS σ.bkts bp) (bp + asize) := by
      rw [hstate]
    have hreshdr : (place_S σ bp asize).mem (bp + asize - 8) = PACK (csize - asize) 0 := by
      rw [hmem, updW_ne _ _ _ _ (by omega), updW_self]
    refine ⟨?_, ?_, ?_⟩
    · intro i hi
      rw [hbkts]
      simp only [insertNodeS, removeNodeS]
      have hbase : List.count bp ((σ.bkts i).erase bp) = 0 := by
        have h1 := List.count_erase_self bp (σ.bkts i)
        have h2 := hcnt i hi
        omega
      split
      · rw [List.count_append, hbase]
        have : List.count bp [bp + asize] = 0 := by
          rw [List.count_singleton]
          simp
          omega
        omega
      · exact hbase
    · intro _
      refine ⟨?_, ?_, ?_, ?_, ?_⟩
      · rw [e1, hmem, updW_ne _ _ _ _ (by omega), updW_ne _ _ _ _ (by omega)]
        by_cases h : (bp : Nat) - 8 = bp + asize - 16
        · rw [h, updW_self]
        · rw [updW_ne _ _ _ _ h, updW_self]
      · rw [hmem, updW_ne _ _ _ _ (by omega), updW_ne _ _ _ _ (by omega), updW_self]
      · rw [e4]; exact hreshdr
      · rw [hmem, updW_self]
      · rw [hbkts]
        simp only [insertNodeS]
        rw [show HDRP (bp + asize) = bp + asize - 8 from rfl]
        have hv : updW (updW (updW (updW σ.mem (bp - 8) (PACK asize 1))
            (bp + asize - 16) (PACK asize 1)) (bp + asize - 8) (PACK (csize - asize) 0))
            (bp + csize - 16) (PACK (csize - asize) 0) (bp + asize - 8) =
            PACK (csize - asize) 0 := by
          rw [updW_ne _ _ _ _ (by omega), updW_self]
        rw [hv, GET_SIZE_PACK _ _ (by omega) (by omega)]
        simp
    · intro h
      omega
  · -- absorb branch
    have hmb : csize - asize < 32 := by
      have : place_min_block = 32 := rfl
      omega
    have e2 : FTRP (updW σ.mem (bp - 8) (PACK csize 1)) bp = bp + csize - 16 := by
      unfold FTRP
      rw [e1, updW_self, GET_SIZE_PACK _ _ hc8 (by omega)]
      rfl
    have hstate : place_S σ bp asize =
        { σ with
          mem := updW (updW σ.mem (bp - 8) (PACK csize 1)) (bp + csize - 16) (PACK csize 1)
          bkts := removeNodeS σ.bkts bp } := by
      simp only [place_S, e1]
      rw [hcs, if_neg hsplit, e2]
    have hmem : (place_S σ bp asize).mem =
        updW (updW σ.mem (bp - 8) (PACK csize 1)) (bp + csize - 16) (PACK csize 1) := by
      rw [hstate]
    have hbkts : (place_S σ bp asize).bkts = removeNodeS σ.bkts bp := by
      rw [hstate]
    refine ⟨?_, ?_, ?_⟩
    · intro i hi
      rw [hbkts]
      simp only [removeNodeS]
      have h1 := List.count_erase_self bp (σ.bkts i)
      have h2 := hcnt i hi
      omega
    · intro h
      omega
    · intro _
      constructor
      · rw [e1, hmem]
        by_cases h : (bp : Nat) - 8 = bp + csize - 16
        · rw [h, updW_self]
        · rw [updW_ne _ _ _ _ h, updW_self]
      · rw [hmem, updW_self]

/-- Witness for `place_spec`: placing a 120-byte request in the free
4096-byte block of `stOneFree` splits it, leaving an allocated block of
120 bytes at 24 and a free remainder of 3976 bytes at 144 in bucket 6. -/
theorem place_spec_witness :
    (∀ i, i < 12 → ((place_S stOneFree 24 120).bkts i).count 24 = 0) ∧
    (32 ≤ 4096 - 120 →
      (place_S stOneFree 24 120).mem (HDRP 24) = PACK 120 1 ∧
      (place_S stOneFree 24 120).mem (24 + 120 - 16) = PACK 120 1 ∧
      (place_S stOneFree 24 120).mem (HDRP (24 + 120)) = PACK (4096 - 120) 0 ∧
      (place_S stOneFree 24 120).mem (24 + 4096 - 16) = PACK (4096 - 120) 0 ∧
      24 + 120 ∈ (place_S stOneFree 24 120).bkts (seg_index (4096 - 120))) ∧
    (4096 - 120 < 32 →
      (place_S stOneFree 24 120).mem (HDRP 24) = PACK 4096 1 ∧
      (place_S stOneFree 24 120).mem (24 + 4096 - 16) = PACK 4096 1) :=
  place_spec stOneFree 24 4096 120 (by decide) (by decide) (by decide) (by decide)
    (by decide) (by decide) (by decide) (by decide)

theorem mem_insertNodeS (m : Nat → Nat) (bkts : Nat → List Nat) (a x i : Nat) :
    x ∈ insertNodeS m bkts a i ↔
      x ∈ bkts i ∨ (x = a ∧ i = seg_index (GET_SIZE (m (HDRP a)))) := by
  simp only [insertNodeS]
  split
  · next h => subst h; simp [List.mem_append]
  · next h => simp [h]

/-- C5: for a newly freed block `bp` (header and footer already cleared,
not yet on any list) with coherent neighbors, `coalesce` produces a free
block whose size is `bp`'s size plus the size of each free physical
neighbor, with bit-identical header and footer written at the merged
extent; every merged neighbor ends up on no bucket, the result lives in
exactly the bucket of the merged size, and the returned pointer is `bp`
when the previous neighbor is allocated and the previous neighbor's
address when it is free. -/
theorem coalesce_spec (σ : AState) (bp sz psz nsz pa na : Nat)
    (hbhdr : σ.mem (bp - 8) = PACK sz 0)
    (hbftr : σ.mem (bp + sz - 16) = PACK sz 0)
    (hpftr : σ.mem (bp - 16) = PACK psz pa)
    (hphdr : σ.mem (bp - psz - 8) = PACK psz pa)
    (hnhdr : σ.mem (bp + sz - 8) = PACK nsz na)
    (hnftr : na = 0 → σ.mem (bp + sz + nsz - 16) = PACK nsz na)
    (hs8 : sz % 8 = 0) (hs32 : 32 ≤ sz)
    (hp8 : psz % 8 = 0) (hp16 : 16 ≤ psz) (hp32 : pa = 0 → 32 ≤ psz)
    (hn8 : nsz % 8 = 0) (hn32 : na = 0 → 32 ≤ nsz)
    (hpa : pa ≤ 1) (hna : na ≤ 1)
    (hbp : psz + 16 ≤ bp)
    (hcbp : ∀ i, i < 12 → (σ.bkts i).count bp = 0)
    (hcp : pa = 0 → ∀ i, i < 12 → (σ.bkts i).count (bp - psz) ≤ 1)
    (hcn : na = 0 → ∀ i, i < 12 → (σ.bkts i).count (bp + sz) ≤ 1) :
    (coalesce_S σ bp).1 = (if pa = 0 then bp - psz else bp) ∧
    ((coalesce_S σ bp).2.mem ((coalesce_S σ bp).1 - 8) =
      PACK (sz + (if pa = 0 then psz else 0) + (if na = 0 then nsz else 0)) 0 ∧
     (coalesce_S σ bp).2.mem ((coalesce_S σ bp).1 +
       (sz + (if pa = 0 then psz else 0) + (if na = 0 then nsz else 0)) - 16) =
      PACK (sz + (if pa = 0 then psz else 0) + (if na = 0 then nsz else 0)) 0) ∧
    (∀ i, i < 12 → ((coalesce_S σ bp).1 ∈ (coalesce_S σ bp).2.bkts i ↔
      i = seg_index (sz + (if pa = 0 then psz else 0) + (if na = 0 then nsz else 0)))) ∧
    (na = 0 → ∀ i, i < 12 → ((coalesce_S σ bp).2.bkts i).count (bp + sz) = 0) := by
  have e1 : HDRP bp = bp - 8 := rfl
  have eprev : PREV_BLKP σ.mem bp = bp - psz := by
    unfold PREV_BLKP
    rw [show bp - DSIZE = bp - 16 from rfl, hpftr, GET_SIZE_PACK _ _ hp8 hpa]
  have efprev : FTRP σ.mem (bp - psz) = bp - 16 := by
    unfold FTRP
    rw [show HDRP (bp - psz) = bp - psz - 8 from rfl, hphdr, GET_SIZE_PACK _ _ hp8 hpa]
    have : DSIZE = 16 := rfl
    omega
  have enext : NEXT_BLKP σ.mem bp = bp + sz := by
    unfold NEXT_BLKP
    rw [e1, hbhdr, GET_SIZE_PACK _ _ hs8 (by omega)]
  have cpa : GET_ALLOC (σ.mem (FTRP σ.mem (PREV_BLKP σ.mem bp))) = pa := by
    rw [eprev, efprev, hpftr, GET_ALLOC_PACK _ _ hp8 hpa]
  have cna : GET_ALLOC (σ.mem (HDRP (NEXT_BLKP σ.mem bp))) = na := by
    rw [enext, show HDRP (bp + sz) = bp + sz - 8 from rfl, hnhdr, GET_ALLOC_PACK _ _ hn8 hna]
  have esz : GET_SIZE (σ.mem (HDRP bp)) = sz := by
    rw [e1, hbhdr, GET_SIZE_PACK _ _ hs8 (by omega)]
  interval_cases pa <;> interval_cases na
  · -- prev free, next free (case 4 of the source)
    have hp32' : 32 ≤ psz := hp32 rfl
    have hn32' : 32 ≤ nsz := hn32 rfl
    have efnext : FTRP σ.mem (bp + sz) = bp + sz + nsz - 16 := by
      unfold FTRP
      rw [show HDRP (bp + sz) = bp + sz - 8 from rfl, hnhdr, GET_SIZE_PACK _ _ hn8 (by omega)]
      rfl
    have enext2 : NEXT_BLKP (updW σ.mem (bp - psz - 8) (PACK (sz + (psz + nsz)) 0)) bp
        = bp + sz := by
      unfold NEXT_BLKP
      rw [e1, updW_ne _ _ _ _ (by omega), hbhdr, GET_SIZE_PACK _ _ hs8 (by omega)]
    have eftr2 : FTRP (updW σ.mem (bp - psz - 8) (PACK (sz + (psz + nsz)) 0)) (bp + sz)
        = bp + sz + nsz - 16 := by
      unfold FTRP
      rw [show HDRP (bp + sz) = bp + sz - 8 from rfl, updW_ne _ _ _ _ (by omega), hnhdr,
        GET_SIZE_PACK _ _ hn8 (by omega)]
      rfl
    have eprev2 : PREV_BLKP (updW (updW σ.mem (bp - psz - 8) (PACK (sz + (psz + nsz)) 0))
        (bp + sz + nsz - 16) (PACK (sz + (psz + nsz)) 0)) bp = bp - psz := by
      unfold PREV_BLKP
      rw [show bp - DSIZE = bp - 16 from rfl, updW_ne _ _ _ _ (by omega),
        updW_ne _ _ _ _ (by omega), hpftr, GET_SIZE_PACK _ _ hp8 (by omega)]
    have hstate : coalesce_S σ bp = (bp - psz, { σ with
        mem := updW (updW σ.mem (bp - psz - 8) (PACK (sz + (psz + nsz)) 0))
          (bp + sz + nsz - 16) (PACK (sz + (psz + nsz)) 0)
        bkts := insertNodeS
          (updW (updW σ.mem (bp - psz - 8) (PACK (sz + (psz + nsz)) 0))
            (bp + sz + nsz - 16) (PACK (sz + (psz + nsz)) 0))
          (removeNodeS (removeNodeS σ.bkts (bp + sz)) (bp - psz)) (bp - psz) }) := by
      simp only [coalesce_S]
      rw [cpa, cna]
      rw [if_neg (by norm_num), if_neg (by norm_num), if_neg (by norm_num)]
      rw [eprev, enext, efnext]
      rw [show HDRP (bp - psz) = bp - psz - 8 from rfl, hphdr,
        GET_SIZE_PACK _ _ hp8 (by omega)]
      rw [hnftr rfl, GET_SIZE_PACK _ _ hn8 (by omega)]
      rw [esz]
      rw [enext2, eftr2, eprev2]
    have hval : updW (updW σ.mem (bp - psz - 8) (PACK (sz + (psz + nsz)) 0))
        (bp + sz + nsz - 16) (PACK (sz + (psz + nsz)) 0) (bp - psz - 8)
        = PACK (sz + (psz + nsz)) 0 := by
      rw [updW_ne _ _ _ _ (by omega), updW_self]
    refine ⟨?_, ⟨?_, ?_⟩, ?_, ?_⟩
    · rw [hstate]
      rfl
    · rw [hstate]
      show _ = PACK (sz + psz + nsz) 0
      rw [show sz + psz + nsz = sz + (psz + nsz) from by omega]
      exact hval
    · rw [hstate]
      show updW _ _ _ (bp - psz + (sz + psz + nsz) - 16) = PACK (sz + psz + nsz) 0
      rw [show sz + psz + nsz = sz + (psz + nsz) from by omega,
        show bp - psz + (sz + (psz + nsz)) - 16 = bp + sz + nsz - 16 from by omega]
      exact updW_self _ _ _
    · intro i hi
      rw [hstate]
      show bp - psz ∈ insertNodeS _ _ (bp - psz) i ↔ i = seg_index (sz + psz + nsz)
      rw [mem_insertNodeS]
      have hbase : bp - psz ∉ removeNodeS (removeNodeS σ.bkts (bp + sz)) (bp - psz) i := by
        rw [← List.count_eq_zero]
        simp only [removeNodeS]
        have h1 := List.count_erase_self (bp - psz) ((σ.bkts i).erase (bp + sz))
        have h2 : ((σ.bkts i).erase (bp + sz)).count (bp - psz) = (σ.bkts i).count (bp - psz) :=
          List.count_erase_of_ne (by omega) _
        have h3 := hcp rfl i hi
        omega
      have hseg : seg_index (GET_SIZE (updW (updW σ.mem (bp - psz - 8)
          (PACK (sz + (psz + nsz)) 0)) (bp + sz + nsz - 16) (PACK (sz + (psz + nsz)) 0)
          (HDRP (bp - psz)))) = seg_index (sz + psz + nsz) := by
        rw [show HDRP (bp - psz) = bp - psz - 8 from rfl, hval,
          GET_SIZE_PACK _ _ (by omega) (by omega),
          show sz + (psz + nsz) = sz + psz + nsz from by omega]
      rw [hseg]
      constructor
      · rintro (h | ⟨_, h⟩)
        · exact absurd h hbase
        · exact h
      · intro h
        exact Or.inr ⟨rfl, h⟩
    · intro _ i hi
      rw [hstate]
      show List.count (bp + sz) (insertNodeS _ _ (bp - psz) i) = 0
      simp only [insertNodeS, removeNodeS]
      have h1 : ((σ.bkts i).erase (bp + sz)).count (bp + sz) = 0 := by
        have := List.count_erase_self (bp + sz) (σ.bkts i)
        have := hcn rfl i hi
        omega
      have h2 : (((σ.bkts i).erase (bp + sz)).erase (bp - psz)).count (bp + sz) = 0 := by
        by_cases hmem : bp - psz ∈ (σ.bkts i).erase (bp + sz)
        · have := List.count_erase_of_ne
            (show bp + sz ≠ bp - psz from by omega) ((σ.bkts i).erase (bp + sz))
          omega
        · rw [List.erase_of_not_mem hmem]
          exact h1
      split
      · rw [List.count_append, h2]
        have : List.count (bp + sz) [bp - psz] = 0 := by
          rw [List.count_singleton]
          simp
          omega
        omega
      · exact h2
  · -- prev free, next allocated (case 3 of the source)
    have hp32' : 32 ≤ psz := hp32 rfl
    have eftr : FTRP (updW σ.mem (bp - psz - 8) (PACK (sz + psz) 0)) bp = bp + sz - 16 := by
      unfold FTRP
      rw [e1, updW_ne _ _ _ _ (by omega), hbhdr, GET_SIZE_PACK _ _ hs8 (by omega)]
      rfl
    have eprev2 : PREV_BLKP (updW (updW σ.mem (bp - psz - 8) (PACK (sz + psz) 0))
        (bp + sz - 16) (PACK (sz + psz) 0)) bp = bp - psz := by
      unfold PREV_BLKP
      rw [show bp - DSIZE = bp - 16 from rfl, updW_ne _ _ _ _ (by omega),
        updW_ne _ _ _ _ (by omega), hpftr, GET_SIZE_PACK _ _ hp8 (by omega)]
    have hstate : coalesce_S σ bp = (bp - psz, { σ with
        mem := updW (updW σ.mem (bp - psz - 8) (PACK (sz + psz) 0))
          (bp + sz - 16) (PACK (sz + psz) 0)
        bkts := insertNodeS
          (updW (updW σ.mem (bp - psz - 8) (PACK (sz + psz) 0))
            (bp + sz - 16) (PACK (sz + psz) 0))
          (removeNodeS σ.bkts (bp - psz)) (bp - psz) }) := by
      simp only [coalesce_S]
      rw [cpa, cna]
      rw [if_neg (by norm_num), if_neg (by norm_num), if_pos (by norm_num)]
      rw [eprev]
      rw [show HDRP (bp - psz) = bp - psz - 8 from rfl, hphdr,
        GET_SIZE_PACK _ _ hp8 (by omega)]
      rw [esz]
      rw [eftr, eprev2]
    have hval : updW (updW σ.mem (bp - psz - 8) (PACK (sz + psz) 0))
        (bp + sz - 16) (PACK (sz + psz) 0) (bp - psz - 8) = PACK (sz + psz) 0 := by
      rw [updW_ne _ _ _ _ (by omega), updW_self]
    refine ⟨?_, ⟨?_, ?_⟩, ?_, ?_⟩
    · rw [hstate]
      rfl
    · rw [hstate]
      exact hval
    · rw [hstate]
      show updW _ _ _ (bp - psz + (sz + psz + 0) - 16) = PACK (sz + psz + 0) 0
      rw [show bp - psz + (sz + psz + 0) - 16 = bp + sz - 16 from by omega]
      exact updW_self _ _ _
    · intro i hi
      rw [hstate]
      show bp - psz ∈ insertNodeS _ _ (bp - psz) i ↔ i = seg_index (sz + psz)
      rw [mem_insertNodeS]
      have hbase : bp - psz ∉ removeNodeS σ.bkts (bp - psz) i := by
        rw [← List.count_eq_zero]
        simp only [removeNodeS]
        have h1 := List.count_erase_self (bp - psz) (σ.bkts i)
        have h3 := hcp rfl i hi
        omega
      have hseg : seg_index (GET_SIZE (updW (updW σ.mem (bp - psz - 8) (PACK (sz + psz) 0))
          (bp + sz - 16) (PACK (sz + psz) 0) (HDRP (bp - psz)))) = seg_index (sz + psz) := by
        rw [show HDRP (bp - psz) = bp - psz - 8 from rfl, hval,
          GET_SIZE_PACK _ _ (by omega) (by omega)]
      rw [hseg]
      constructor
      · rintro (h | ⟨_, h⟩)
        · exact absurd h hbase
        · exact h
      · intro h
        exact Or.inr ⟨rfl, h⟩
    · intro h
      exact absurd h (by norm_num)
  · -- prev allocated, next free (case 2 of the source)
    have hn32' : 32 ≤ nsz := hn32 rfl
    have eftr : FTRP (updW σ.mem (bp - 8) (PACK (sz + nsz) 0)) bp
        = bp + (sz + nsz) - 16 := by
      unfold FTRP
      rw [e1, updW_self, GET_SIZE_PACK _ _ (by omega) (by omega)]
      rfl
    have hstate : coalesce_S σ bp = (bp, { σ with
        mem := updW (updW σ.mem (bp - 8) (PACK (sz + nsz) 0))
          (bp + (sz + nsz) - 16) (PACK (sz + nsz) 0)
        bkts := insertNodeS
          (updW (updW σ.mem (bp - 8) (PACK (sz + nsz) 0))
            (bp + (sz + nsz) - 16) (PACK (sz + nsz) 0))
          (removeNodeS σ.bkts (bp + sz)) bp }) := by
      simp only [coalesce_S]
      rw [cpa, cna]
      rw [if_neg (by norm_num), if_pos (by norm_num)]
      rw [enext]
      rw [show HDRP (bp + sz) = bp + sz - 8 from rfl, hnhdr,
        GET_SIZE_PACK _ _ hn8 (by omega)]
      rw [esz, e1]
      rw [eftr]
    have hval : updW (updW σ.mem (bp - 8) (PACK (sz + nsz) 0))
        (bp + (sz + nsz) - 16) (PACK (sz + nsz) 0) (bp - 8) = PACK (sz + nsz) 0 := by
      rw [updW_ne _ _ _ _ (by omega), updW_self]
    refine ⟨?_, ⟨?_, ?_⟩, ?_, ?_⟩
    · rw [hstate]
      rfl
    · rw [hstate]
      show _ = PACK (sz + 0 + nsz) 0
      rw [show sz + 0 + nsz = sz + nsz from by omega]
      exact hval
    · rw [hstate]
      show updW _ _ _ (bp + (sz + 0 + nsz) - 16) = PACK (sz + 0 + nsz) 0
      rw [show sz + 0 + nsz = sz + nsz from by omega]
      exact updW_self _ _ _
    · intro i hi
      rw [hstate]
      show bp ∈ insertNodeS _ _ bp i ↔ i = seg_index (sz + 0 + nsz)
      rw [mem_insertNodeS, show sz + 0 + nsz = sz + nsz from by omega]
      have hbase : bp ∉ removeNodeS σ.bkts (bp + sz) i := by
        rw [← List.count_eq_zero]
        simp only [removeNodeS]
        have h2 : ((σ.bkts i).erase (bp + sz)).count bp = (σ.bkts i).count bp :=
          List.count_erase_of_ne (by omega) _
        have h3 := hcbp i hi
        omega
      have hseg : seg_index (GET_SIZE (updW (updW σ.mem (bp - 8) (PACK (sz + nsz) 0))
          (bp + (sz + nsz) - 16) (PACK (sz + nsz) 0) (HDRP bp))) = seg_index (sz + nsz) := by
        rw [e1, hval, GET_SIZE_PACK _ _ (by omega) (by omega)]
      rw [hseg]
      constructor
      · rintro (h | ⟨_, h⟩)
        · exact absurd h hbase
        · exact h
      · intro h
        exact Or.inr ⟨rfl, h⟩
    · intro _ i hi
      rw [hstate]
      show List.count (bp + sz) (insertNodeS _ _ bp i) = 0
      simp only [insertNodeS, removeNodeS]
      have h1 : ((σ.bkts i).erase (bp + sz)).count (bp + sz) = 0 := by
        have := List.count_erase_self (bp + sz) (σ.bkts i)
        have := hcn rfl i hi
        omega
      split
      · rw [List.count_append, h1]
        have : List.count (bp + sz) [bp] = 0 := by
          rw [List.count_singleton]
          simp
          omega
        omega
      · exact h1
  · -- prev allocated, next allocated (case 1 of the source)
    have hstate : coalesce_S σ bp =
        (bp, { σ with bkts := insertNodeS σ.mem σ.bkts bp }) := by
      simp only [coalesce_S]
      rw [cpa, cna]
      rw [if_pos (by norm_num)]
    refine ⟨?_, ⟨?_, ?_⟩, ?_, ?_⟩
    · rw [hstate]
      rfl
    · rw [hstate]
      exact hbhdr
    · rw [hstate]
      show σ.mem (bp + (sz + 0 + 0) - 16) = PACK (sz + 0 + 0) 0
      rw [show sz + 0 + 0 = sz from by omega]
      exact hbftr
    · intro i hi
      rw [hstate]
      show bp ∈ insertNodeS σ.mem σ.bkts bp i ↔ i = seg_index (sz + 0 + 0)
      rw [mem_insertNodeS, show sz + 0 + 0 = sz from by omega]
      have hbase : bp ∉ σ.bkts i := by
        rw [← List.count_eq_zero]
        exact hcbp i hi
      have hseg : seg_index (GET_SIZE (σ.mem (HDRP bp))) = seg_index sz := by
        rw [esz]
      rw [hseg]
      constructor
      · rintro (h | ⟨_, h⟩)
        · exact absurd h hbase
        · exact h
      · intro h
        exact Or.inr ⟨rfl, h⟩
    · intro h
      exact absurd h (by norm_num)

/-- Witness for `coalesce_spec`: coalescing the newly freed 32-byte block
at 120 of `stCoal`, whose two physical neighbors are both free, merges
all three into a 96-byte free block at 88 in bucket 1. -/
theorem coalesce_spec_witness :
    (coalesce_S stCoal 120).1 = (if (0 : Nat) = 0 then 120 - 32 else 120) ∧
    ((coalesce_S stCoal 120).2.mem ((coalesce_S stCoal 120).1 - 8) =
      PACK (32 + (if (0 : Nat) = 0 then 32 else 0) + (if (0 : Nat) = 0 then 32 else 0)) 0 ∧
     (coalesce_S stCoal 120).2.mem ((coalesce_S stCoal 120).1 +
       (32 + (if (0 : Nat) = 0 then 32 else 0) + (if (0 : Nat) = 0 then 32 else 0)) - 16) =
      PACK (32 + (if (0 : Nat) = 0 then 32 else 0) + (if (0 : Nat) = 0 then 32 else 0)) 0) ∧
    (∀ i, i < 12 → ((coalesce_S stCoal 120).1 ∈ (coalesce_S stCoal 120).2.bkts i ↔
      i = seg_index (32 + (if (0 : Nat) = 0 then 32 else 0) +
        (if (0 : Nat) = 0 then 32 else 0)))) ∧
    ((0 : Nat) = 0 → ∀ i, i < 12 →
      ((coalesce_S stCoal 120).2.bkts i).count (120 + 32) = 0) :=
  coalesce_spec stCoal 120 32 32 32 0 0 (by decide) (by decide) (by decide) (by decide)
    (by decide) (by decide) (by decide) (by decide) (by decide) (by decide) (by decide)
    (by decide) (by decide) (by decide) (by decide) (by decide) (by decide) (by decide)
    (by decide)

/-- C4 (amended): fast path B of `mm_realloc` fires when `newsize` is
larger than `oldsize`, fast path A does not apply, and the next physical
neighbor is free with `size(next) ≥ newsize - oldsize` AND
`size(next) > 48` (the routine's own minimum-block constant
`2 * DSIZE + 16`, not the allocator's 32).  The neighbor is removed from
its bucket and the returned address is `bp`; when the residue
`size(next) - (newsize - oldsize)` is at least 48 the block is stamped
with `newsize` and a free residue is installed at `bp + newsize` and
inserted into its bucket, otherwise the whole neighbor is absorbed. -/
theorem realloc_fastpathB_spec (σ : AState) (p s os ps pa fbo ns : Nat)
    (hp0 : p ≠ 0) (hs0 : s ≠ 0)
    (hns : ns = if s ≤ DSIZE then 2 * WSIZE + 16 else (ALIGN s + DSIZE) % W64)
    (hhdr : σ.mem (p - 8) = PACK os 1)
    (hos8 : os % 8 = 0) (hos32 : 32 ≤ os)
    (hgrow : os < ns) (hns8 : ns % 8 = 0)
    (hpftr : σ.mem (p - 16) = PACK ps pa)
    (hphdr : σ.mem (p - ps - 8) = PACK ps pa)
    (hps8 : ps % 8 = 0) (hps16 : 16 ≤ ps) (hpa : pa ≤ 1)
    (hnoA : pa = 1 ∨ ps < ns - os)
    (hnhdr : σ.mem (p + os - 8) = PACK fbo 0)
    (hfbo8 : fbo % 8 = 0)
    (hcond1 : ns - os ≤ fbo) (hcond2 : 48 < fbo)
    (hbp : 16 ≤ p)
    (hcnt : ∀ i, i < 12 → (σ.bkts i).count (p + os) ≤ 1) :
    (mm_realloc_S σ p s).1 = p ∧
    (∀ i, i < 12 → ((mm_realloc_S σ p s).2.bkts i).count (p + os) = 0) ∧
    (48 ≤ fbo - (ns - os) →
      (mm_realloc_S σ p s).2.mem (p - 8) = PACK ns 1 ∧
      (mm_realloc_S σ p s).2.mem (p + ns - 16) = PACK ns 1 ∧
      (mm_realloc_S σ p s).2.mem (p + ns - 8) = PACK (fbo - (ns - os)) 0 ∧
      (mm_realloc_S σ p s).2.mem (p + os + fbo - 16) = PACK (fbo - (ns - os)) 0 ∧
      p + ns ∈ (mm_realloc_S σ p s).2.bkts (seg_index (fbo - (ns - os)))) ∧
    (fbo - (ns - os) < 48 →
      (mm_realloc_S σ p s).2.mem (p - 8) = PACK (os + fbo) 1 ∧
      (mm_realloc_S σ p s).2.mem (p + os + fbo - 16) = PACK (os + fbo) 1) := by
  have hns32 : 32 < ns := by omega
  have e1 : HDRP p = p - 8 := rfl
  have ehdr : GET_SIZE (σ.mem (HDRP p)) = os := by
    rw [e1, hhdr, GET_SIZE_PACK _ _ hos8 (by omega)]
  have eprevS : PREV_BLKP σ.mem p = p - ps := by
    unfold PREV_BLKP
    rw [show p - DSIZE = p - 16 from rfl, hpftr, GET_SIZE_PACK _ _ hps8 hpa]
  have enextS : NEXT_BLKP σ.mem p = p + os := by
    unfold NEXT_BLKP
    rw [e1, hhdr, GET_SIZE_PACK _ _ hos8 (by omega)]
  have emb : realloc_min_block = 48 := rfl
  by_cases hres : 48 ≤ fbo - (ns - os)
  · -- split: stamp newsize, install the residue
    have eftr : FTRP (updW σ.mem (p - 8) (PACK ns 1)) p = p + ns - 16 := by
      unfold FTRP
      rw [e1, updW_self, GET_SIZE_PACK _ _ hns8 (by omega)]
      rfl
    have ehd2 : updW (updW σ.mem (p - 8) (PACK ns 1)) (p + ns - 16) (PACK ns 1) (p - 8)
        = PACK ns 1 := by
      rw [updW_ne _ _ _ _ (by omega), updW_self]
    have enext2 : NEXT_BLKP (updW (updW σ.mem (p - 8) (PACK ns 1))
        (p + ns - 16) (PACK ns 1)) p = p + ns := by
      unfold NEXT_BLKP
      rw [e1, ehd2, GET_SIZE_PACK _ _ hns8 (by omega)]
    have e4 : HDRP (p + ns) = p + ns - 8 := rfl
    have eftr2 : FTRP (updW (updW (updW σ.mem (p - 8) (PACK ns 1)) (p + ns - 16)
        (PACK ns 1)) (p + ns - 8) (PACK (fbo - (ns - os)) 0)) (p + ns)
        = p + ns + (fbo - (ns - os)) - 16 := by
      unfold FTRP
      rw [e4, updW_self, GET_SIZE_PACK _ _ (by omega) (by omega)]
      rfl
    have hstate : mm_realloc_S σ p s = (p, { σ with
        mem := updW (updW (updW (updW σ.mem (p - 8) (PACK ns 1)) (p + ns - 16) (PACK ns 1))
          (p + ns - 8) (PACK (fbo - (ns - os)) 0))
          (p + ns + (fbo - (ns - os)) - 16) (PACK (fbo - (ns - os)) 0)
        bkts := insertNodeS
          (updW (updW (updW (updW σ.mem (p - 8) (PACK ns 1)) (p + ns - 16) (PACK ns 1))
            (p + ns - 8) (PACK (fbo - (ns - os)) 0))
            (p + ns + (fbo - (ns - os)) - 16) (PACK (fbo - (ns - os)) 0))
          (removeNodeS σ.bkts (p + os)) (p + ns) }) := by
      simp only [mm_realloc_S]
      rw [if_neg hs0, ← hns, if_neg hp0, ehdr, if_neg (by omega)]
      rw [eprevS, show HDRP (p - ps) = p - ps - 8 from rfl, hphdr,
        GET_ALLOC_PACK _ _ hps8 hpa, GET_SIZE_PACK _ _ hps8 hpa]
      rw [if_neg (by rcases hnoA with h | h <;> omega)]
      rw [enextS, show HDRP (p + os) = p + os - 8 from rfl, hnhdr,
        GET_ALLOC_PACK _ _ hfbo8 (by omega), GET_SIZE_PACK _ _ hfbo8 (by omega), emb]
      rw [if_pos ⟨rfl, hcond1, hcond2⟩, if_pos hres]
      rw [e1, eftr, memcpyW_self, enext2, e4, eftr2]
    refine ⟨?_, ?_, ?_, ?_⟩
    · rw [hstate]
    · intro i hi
      rw [hstate]
      show List.count (p + os) (insertNodeS _ _ (p + ns) i) = 0
      simp only [insertNodeS, removeNodeS]
      have h1 : ((σ.bkts i).erase (p + os)).count (p + os) = 0 := by
        have := List.count_erase_self (p + os) (σ.bkts i)
        have := hcnt i hi
        omega
      split
      · rw [List.count_append, h1]
        have : List.count (p + os) [p + ns] = 0 := by
          rw [List.count_singleton]
          simp
          omega
        omega
      · exact h1
    · intro _
      refine ⟨?_, ?_, ?_, ?_, ?_⟩
      · rw [hstate]
        show updW _ _ _ (p - 8) = PACK ns 1
        rw [updW_ne _ _ _ _ (by omega), updW_ne _ _ _ _ (by omega)]
        exact ehd2
      · rw [hstate]
        show updW _ _ _ (p + ns - 16) = PACK ns 1
        rw [updW_ne _ _ _ _ (by omega), updW_ne _ _ _ _ (by omega), updW_self]
      · rw [hstate]
        show updW _ _ _ (p + ns - 8) = PACK (fbo - (ns - os)) 0
        rw [updW_ne _ _ _ _ (by omega), updW_self]
      · rw [hstate]
        show updW _ _ _ (p + os + fbo - 16) = PACK (fbo - (ns - os)) 0
        rw [show (p : Nat) + os + fbo - 16 = p + ns + (fbo - (ns - os)) - 16 from by omega]
        exact updW_self _ _ _
      · rw [hstate]
        show p + ns ∈ insertNodeS _ _ (p + ns) (seg_index (fbo - (ns - os)))
        rw [mem_insertNodeS]
        refine Or.inr ⟨rfl, ?_⟩
        rw [e4, updW_ne _ _ _ _ (by omega), updW_self,
          GET_SIZE_PACK _ _ (by omega) (by omega)]
    · intro h
      omega
  · -- absorb: stamp oldsize + size(next)
    have eftr : FTRP (updW σ.mem (p - 8) (PACK (os + fbo) 1)) p = p + (os + fbo) - 16 := by
      unfold FTRP
      rw [e1, updW_self, GET_SIZE_PACK _ _ (by omega) (by omega)]
      rfl
    have hstate : mm_realloc_S σ p s = (p, { σ with
        mem := updW (updW σ.mem (p - 8) (PACK (os + fbo) 1))
          (p + (os + fbo) - 16) (PACK (os + fbo) 1)
        bkts := removeNodeS σ.bkts (p + os) }) := by
      simp only [mm_realloc_S]
      rw [if_neg hs0, ← hns, if_neg hp0, ehdr, if_neg (by omega)]
      rw [eprevS, show HDRP (p - ps) = p - ps - 8 from rfl, hphdr,
        GET_ALLOC_PACK _ _ hps8 hpa, GET_SIZE_PACK _ _ hps8 hpa]
      rw [if_neg (by rcases hnoA with h | h <;> omega)]
      rw [enextS, show HDRP (p + os) = p + os - 8 from rfl, hnhdr,
        GET_ALLOC_PACK _ _ hfbo8 (by omega), GET_SIZE_PACK _ _ hfbo8 (by omega), emb]
      rw [if_pos ⟨rfl, hcond1, hcond2⟩, if_neg hres]
      rw [e1, eftr, memcpyW_self]
    refine ⟨?_, ?_, ?_, ?_⟩
    · rw [hstate]
    · intro i hi
      rw [hstate]
      show List.count (p + os) (removeNodeS σ.bkts (p + os) i) = 0
      simp only [removeNodeS]
      have := List.count_erase_self (p + os) (σ.bkts i)
      have := hcnt i hi
      omega
    · intro h
      omega
    · intro _
      constructor
      · rw [hstate]
        show updW _ _ _ (p - 8) = PACK (os + fbo) 1
        rw [updW_ne _ _ _ _ (by omega), updW_self]
      · rw [hstate]
        show updW _ _ _ (p + os + fbo - 16) = PACK (os + fbo) 1
        rw [show (p : Nat) + os + fbo - 16 = p + (os + fbo) - 16 from by omega]
        exact updW_self _ _ _

/-- Witness for `realloc_fastpathB_spec`: in `stB`, growing the 32-byte
block at 24 to request 24 (newsize 40) absorbs 8 bytes of the free
56-byte neighbor; the residue of 48 bytes is split off at 64 and inserted
into bucket 0, and 24 itself is returned. -/
theorem realloc_fastpathB_spec_witness :
    (mm_realloc_S stB 24 24).1 = 24 ∧
    (∀ i, i < 12 → ((mm_realloc_S stB 24 24).2.bkts i).count (24 + 32) = 0) ∧
    (48 ≤ 56 - (40 - 32) →
      (mm_realloc_S stB 24 24).2.mem (24 - 8) = PACK 40 1 ∧
      (mm_realloc_S stB 24 24).2.mem (24 + 40 - 16) = PACK 40 1 ∧
      (mm_realloc_S stB 24 24).2.mem (24 + 40 - 8) = PACK (56 - (40 - 32)) 0 ∧
      (mm_realloc_S stB 24 24).2.mem (24 + 32 + 56 - 16) = PACK (56 - (40 - 32)) 0 ∧
      24 + 40 ∈ (mm_realloc_S stB 24 24).2.bkts (seg_index (56 - (40 - 32)))) ∧
    (56 - (40 - 32) < 48 →
      (mm_realloc_S stB 24 24).2.mem (24 - 8) = PACK (32 + 56) 1 ∧
      (mm_realloc_S stB 24 24).2.mem (24 + 32 + 56 - 16) = PACK (32 + 56) 1) :=
  realloc_fastpathB_spec stB 24 24 32 16 1 56 40 (by decide) (by decide) (by decide)
    (by decide) (by decide) (by decide) (by decide) (by decide) (by decide) (by decide)
    (by decide) (by decide) (by decide) (by decide) (by decide) (by decide) (by decide)
    (by decide) (by decide) (by decide)

theorem ilog2Go_eq_log (fuel : Nat) : ∀ n : Nat, n < 2 ^ fuel → ilog2Go fuel n = Nat.log 2 n := by
  induction fuel with
  | zero =>
    intro n hn
    have : n = 0 := by simpa using Nat.lt_one_iff.mp (by simpa using hn)
    subst this
    simp [ilog2Go]
  | succ fuel ih =>
    intro n hn
    by_cases h1 : n ≤ 1
    · have : Nat.log 2 n = 0 := Nat.log_eq_zero_iff.mpr (Or.inl (by omega))
      simp [ilog2Go, h1, this]
    · have h2 : 2 ≤ n := by omega
      have hdiv : n / 2 < 2 ^ fuel := by
        have : (2 : Nat) ^ (fuel + 1) = 2 * 2 ^ fuel := by ring
        omega
      have hpos : 0 < Nat.log 2 n := Nat.log_pos (by norm_num) h2
      have hrec : Nat.log 2 (n / 2) = Nat.log 2 n - 1 := Nat.log_div_base 2 n
      simp only [ilog2Go, if_neg h1]
      rw [ih (n / 2) hdiv, hrec]
      omega

theorem ilog2_eq_log (n : Nat) (h : n < 2 ^ 64) : ilog2 n = Nat.log 2 n :=
  ilog2Go_eq_log 64 n h

theorem lastD_mem (a : Nat) (xs : List Nat) : lastD a xs ∈ a :: xs := by
  induction xs generalizing a with
  | nil => simp [lastD]
  | cons x xs ih =>
    have := ih x
    simp only [lastD]
    rcases List.mem_cons.mp this with h | h
    · simp [h]
    · simp [List.mem_cons, h]

theorem headD_append_single (l : List Nat) (x a : Nat) :
    headD (l ++ [x]) a = headD l x := by
  cases l <;> rfl

theorem headD_reverse (xs : List Nat) (a : Nat) : headD xs.reverse a = lastD a xs := by
  induction xs generalizing a with
  | nil => rfl
  | cons x xs ih =>
    simp only [List.reverse_cons, lastD]
    rw [headD_append_single, ih]

theorem chain_head (f : Nat → Nat) (a : Nat) (xs : List Nat) (b : Nat)
    (h : chain f a xs b) : f a = headD xs b := by
  cases xs with
  | nil => exact h
  | cons x xs => exact h.1

theorem chain_congr (f g : Nat → Nat) (a : Nat) (xs : List Nat) (b : Nat)
    (h : chain f a xs b) (hfg : ∀ x, x ∈ a :: xs → g x = f x) : chain g a xs b := by
  induction xs generalizing a with
  | nil => rw [show chain g a [] b = (g a = b) from rfl, hfg a (by simp)]; exact h
  | cons x xs ih =>
    refine ⟨?_, ?_⟩
    · rw [hfg a (by simp)]; exact h.1
    · exact ih x h.2 (fun y hy => hfg y (by simp [List.mem_cons] at hy ⊢; tauto))

theorem chain_append_point (f : Nat → Nat) (a : Nat) (xs : List Nat) (b c d : Nat)
    (h : chain f a xs b) (hc : c ∉ a :: xs) (hnd : (a :: xs).Nodup) :
    chain (updW (updW f (lastD a xs) c) c d) a (xs ++ [c]) d := by
  induction xs generalizing a with
  | nil =>
    refine ⟨?_, ?_⟩
    · have hac : a ≠ c := by simp at hc; omega
      rw [show lastD a [] = a from rfl, updW_ne _ _ _ _ hac, updW_self]
    · exact updW_self _ _ _
  | cons x xs ih =>
    have hax : a ∉ x :: xs := by
      have := hnd
      rw [List.nodup_cons] at this
      exact this.1
    refine ⟨?_, ?_⟩
    · have hac : a ≠ c := by
        intro hh
        exact hc (by simp [hh])
      have hal : a ≠ lastD x xs := by
        intro hh
        exact hax (hh ▸ lastD_mem x xs)
      rw [show lastD a (x :: xs) = lastD x xs from rfl, updW_ne _ _ _ _ hac,
        updW_ne _ _ _ _ hal]
      exact h.1
    · have hc' : c ∉ x :: xs := by
        intro hh
        exact hc (by simp [List.mem_cons] at hh ⊢; tauto)
      have hnd' : (x :: xs).Nodup := by
        rw [List.nodup_cons] at hnd
        exact hnd.2
      exact ih x h.2 hc' hnd'

/-- C8 (amended): for a free block with header size `32 ≤ s < 2 ^ 32`,
the bucket index computed by `get_free_list_head` is
`min(log2 s - 5, N - 1)`, and the pointer-level `insertNode` splices the
node immediately before that bucket's sentinel: the node becomes
`sentinel.prev`, its `next` points at the sentinel, and the bucket is
again a valid circular doubly-linked list holding the old nodes followed
by the new one. -/
theorem insertNode_spec (L : LState) (sb bp s : Nat) (xs : List Nat)
    (hs8 : s % 8 = 0) (hs32 : 32 ≤ s) (hslt : s < 2 ^ 32)
    (hrep : bucketRep L sb xs) (hnew : bp ∉ sb :: xs) :
    seg_index s = min (Nat.log 2 s - 5) 11 ∧
    GET_SIZE (PACK s 0) = s ∧
    (insertNode_P L sb bp).prv sb = bp ∧
    (insertNode_P L sb bp).nxt bp = sb ∧
    bucketRep (insertNode_P L sb bp) sb (xs ++ [bp]) := by
  obtain ⟨hnx, hpv, hnd⟩ := hrep
  have hbpsb : bp ≠ sb := by
    intro h
    exact hnew (by simp [h])
  have hbpxs : bp ∉ xs := by
    intro h
    exact hnew (by simp [h])
  have hsbxs : sb ∉ xs := (List.nodup_cons.mp hnd).1
  have hins : insertNode_P L sb bp =
      { nxt := updW (updW L.nxt (L.prv sb) bp) bp sb
        prv := updW (updW L.prv bp (L.prv sb)) sb bp } := rfl
  have htail : L.prv sb = lastD sb xs := by
    rw [chain_head L.prv sb xs.reverse sb hpv, headD_reverse]
  refine ⟨?_, GET_SIZE_PACK _ _ hs8 (by omega), ?_, ?_, ?_, ?_, ?_⟩
  · simp only [seg_index, NUM_SEGS]
    rw [Nat.mod_eq_of_lt hslt, ilog2_eq_log s (by
      calc s < 2 ^ 32 := hslt
        _ ≤ 2 ^ 64 := by norm_num)]
    split <;> omega
  · rw [hins]
    exact updW_self _ _ _
  · rw [hins]
    exact updW_self _ _ _
  · -- next chain: sb, xs..., bp, back to sb
    rw [hins]
    show chain (updW (updW L.nxt (L.prv sb) bp) bp sb) sb (xs ++ [bp]) sb
    rw [htail]
    exact chain_append_point L.nxt sb xs sb bp sb hnx hnew hnd
  · -- prev chain: sb, bp, xs reversed, back to sb
    rw [hins]
    show chain (updW (updW L.prv bp (L.prv sb)) sb bp) sb ((xs ++ [bp]).reverse) sb
    rw [List.reverse_append, List.reverse_singleton]
    show chain _ sb (bp :: xs.reverse) sb
    refine ⟨updW_self _ _ _, ?_⟩
    cases hxr : xs.reverse with
    | nil =>
      have hxs : xs = [] := List.reverse_eq_nil_iff.mp hxr
      show updW (updW L.prv bp (L.prv sb)) sb bp bp = sb
      rw [updW_ne _ _ _ _ hbpsb, updW_self]
      rw [hxs] at hpv
      exact hpv
    | cons h1 rest =>
      rw [hxr] at hpv
      refine ⟨?_, ?_⟩
      · show updW (updW L.prv bp (L.prv sb)) sb bp bp = h1
        rw [updW_ne _ _ _ _ hbpsb, updW_self]
        exact hpv.1
      · refine chain_congr L.prv _ h1 rest sb hpv.2 ?_
        intro y hy
        have hyx : y ∈ xs.reverse := by
          rw [hxr]
          exact hy
        have hyxs : y ∈ xs := List.mem_reverse.mp hyx
        rw [updW_ne _ _ _ _ (by intro hh; exact hsbxs (hh ▸ hyxs)),
          updW_ne _ _ _ _ (by intro hh; exact hbpxs (hh ▸ hyxs))]
  · -- distinctness
    rw [List.nodup_cons] at hnd ⊢
    refine ⟨?_, ?_⟩
    · intro hh
      rcases List.mem_append.mp hh with h | h
      · exact hnd.1 h
      · simp at h
        exact hbpsb h.symm
    · rw [List.nodup_append]
      refine ⟨hnd.2, by simp, ?_⟩
      intro y hy
      simp only [List.mem_singleton]
      intro hh
      exact hbpxs (hh ▸ hy)

/-- Witness for `insertNode_spec`: inserting node 3000 with header size
64 into the bucket of `LC8` (sentinel 1000, nodes 2000 and 2024) lands in
bucket index 1 and makes 3000 the sentinel's `prev`. -/
theorem insertNode_spec_witness :
    seg_index 64 = min (Nat.log 2 64 - 5) 11 ∧
    GET_SIZE (PACK 64 0) = 64 ∧
    (insertNode_P LC8 1000 3000).prv 1000 = 3000 ∧
    (insertNode_P LC8 1000 3000).nxt 3000 = 1000 ∧
    bucketRep (insertNode_P LC8 1000 3000) 1000 ([2000, 2024] ++ [3000]) :=
  insertNode_spec LC8 1000 3000 64 [2000, 2024] (by decide) (by decide) (by decide)
    (by decide) (by decide)

theorem chain_next_mem (f : Nat → Nat) (a : Nat) (xs : List Nat) (b : Nat)
    (h : chain f a xs b) : ∀ x ∈ xs, f x ∈ xs ∨ f x = b := by
  induction xs generalizing a with
  | nil => intro x hx; simp at hx
  | cons y ys ih =>
    intro x hx
    rcases List.mem_cons.mp hx with rfl | hx'
    · cases ys with
      | nil => exact Or.inr h.2
      | cons z zs => exact Or.inl (by rw [h.2.1]; simp)
    · rcases ih y h.2 x hx' with hm | hb
      · exact Or.inl (by simp [hm])
      · exact Or.inr hb

theorem chain_head_mem (f : Nat → Nat) (a : Nat) (xs : List Nat) (b : Nat)
    (h : chain f a xs b) (hne : xs ≠ []) : f a ∈ xs := by
  cases xs with
  | nil => exact absurd rfl hne
  | cons y ys => rw [h.1]; simp

theorem find_block_go_sound (nx m : Nat → Nat) (list asize : Nat) (xs : List Nat)
    (hch : chain nx list xs list) :
    ∀ fuel cur, cur ∈ xs →
      (∀ r, find_block_go nx m list asize cur fuel = some r →
        r ∈ xs ∧ asize ≤ GET_SIZE (m (HDRP r))) ∧
      (∀ a, a ∈ find_block_reads nx m list asize cur fuel → a ∈ xs) := by
  intro fuel
  induction fuel with
  | zero =>
    intro cur hcur
    constructor
    · intro r hr
      simp [find_block_go] at hr
    · intro a ha
      simp [find_block_reads] at ha
  | succ fuel ih =>
    intro cur hcur
    by_cases hfit : asize ≤ GET_SIZE (m (HDRP cur))
    · constructor
      · intro r hr
        simp only [find_block_go, if_pos hfit] at hr
        obtain rfl := Option.some.inj hr
        exact ⟨hcur, hfit⟩
      · intro a ha
        simp only [find_block_reads, if_pos hfit] at ha
        simp at ha
        subst ha
        exact hcur
    · by_cases hf0 : fuel = 0
      · constructor
        · intro r hr
          simp only [find_block_go, if_neg hfit, if_pos hf0] at hr
          simp at hr
        · intro a ha
          simp only [find_block_reads, if_neg hfit, if_pos hf0] at ha
          simp at ha
          subst ha
          exact hcur
      · by_cases hwrap : nx cur = list
        · constructor
          · intro r hr
            simp only [find_block_go, if_neg hfit, if_neg hf0, if_pos hwrap] at hr
            simp at hr
          · intro a ha
            simp only [find_block_reads, if_neg hfit, if_neg hf0, if_pos hwrap] at ha
            simp at ha
            subst ha
            exact hcur
        · have hnxmem : nx cur ∈ xs := by
            rcases chain_next_mem nx list xs list hch cur hcur with h | h
            · exact h
            · exact absurd h hwrap
          constructor
          · intro r hr
            simp only [find_block_go, if_neg hfit, if_neg hf0, if_neg hwrap] at hr
            exact (ih (nx cur) hnxmem).1 r hr
          · intro a ha
            simp only [find_block_reads, if_neg hfit, if_neg hf0, if_neg hwrap] at ha
            rcases List.mem_cons.mp ha with rfl | ha'
            · exact hcur
            · exact (ih (nx cur) hnxmem).2 a ha'

theorem bucket_nonempty_of_next_ne (L : LState) (s : Nat) (xs : List Nat)
    (hch : chain L.nxt s xs s) (hne : L.nxt s ≠ s) : xs ≠ [] := by
  intro h
  subst h
  exact hne hch

theorem find_fit_go_sound (L : LState) (m : Nat → Nat) (sent : Nat → Nat) (asize : Nat)
    (Ls : Nat → List Nat)
    (hch : ∀ i, i < 12 → chain L.nxt (sent i) (Ls i) (sent i)) :
    ∀ idxs : List Nat, (∀ i, i ∈ idxs → i < 12) →
      ∀ b, find_fit_go L m sent asize idxs = some b →
        ∃ i, i < 12 ∧ b ∈ Ls i ∧ asize ≤ GET_SIZE (m (HDRP b)) := by
  intro idxs
  induction idxs with
  | nil =>
    intro _ b hb
    simp [find_fit_go] at hb
  | cons i rest ih =>
    intro hlt b hb
    have hi : i < 12 := hlt i (by simp)
    simp only [find_fit_go] at hb
    by_cases hne : L.nxt (sent i) ≠ sent i
    · rw [if_pos hne] at hb
      cases hfb : find_block_P L m (sent i) asize with
      | some r =>
        rw [hfb] at hb
        obtain rfl := Option.some.inj hb
        have hxs : Ls i ≠ [] := bucket_nonempty_of_next_ne L (sent i) (Ls i) (hch i hi) hne
        have hcur : L.nxt (sent i) ∈ Ls i := chain_head_mem _ _ _ _ (hch i hi) hxs
        have := (find_block_go_sound L.nxt m (sent i) asize (Ls i) (hch i hi) 51
          (L.nxt (sent i)) hcur).1 r hfb
        exact ⟨i, hi, this.1, this.2⟩
      | none =>
        rw [hfb] at hb
        exact ih (fun j hj => hlt j (by simp [hj])) b hb
    · rw [if_neg hne] at hb
      exact ih (fun j hj => hlt j (by simp [hj])) b hb

/-- C10: over well-formed circular bucket lists (each sentinel's `next`
chain steps through that bucket's nodes and back, and no sentinel occurs
as a node), whenever `find_fit` returns a block it is a node of some
bucket's list - never one of the 12 sentinels - whose stored size is at
least `asize`; moreover every address whose header the `find_block` scan
reads belongs to the scanned bucket's node list (and empty buckets are
skipped before any read). -/
theorem find_fit_safety (L : LState) (m : Nat → Nat) (sent : Nat → Nat) (asize b : Nat)
    (Ls : Nat → List Nat)
    (hch : ∀ i, i < 12 → chain L.nxt (sent i) (Ls i) (sent i))
    (hsent : ∀ i, i < 12 → ∀ j, j < 12 → sent j ∉ Ls i)
    (hret : find_fit_P L m sent asize = some b) :
    (∃ i, i < 12 ∧ b ∈ Ls i) ∧
    asize ≤ GET_SIZE (m (HDRP b)) ∧
    (∀ j, j < 12 → b ≠ sent j) ∧
    (∀ i, i < 12 → L.nxt (sent i) ≠ sent i →
      ∀ a, a ∈ find_block_reads L.nxt m (sent i) asize (L.nxt (sent i)) 51 → a ∈ Ls i) := by
  have hall : ∀ i, i ∈ (List.range NUM_SEGS).drop (seg_index asize) → i < 12 := by
    intro i hi
    have := List.mem_of_mem_drop hi
    simpa [NUM_SEGS] using List.mem_range.mp this
  obtain ⟨i, hi, hbmem, hsize⟩ :=
    find_fit_go_sound L m sent asize Ls hch _ hall b hret
  refine ⟨⟨i, hi, hbmem⟩, hsize, ?_, ?_⟩
  · intro j hj hbe
    exact hsent i hi j hj (hbe ▸ hbmem)
  · intro k hk hne a ha
    have hxs : Ls k ≠ [] := bucket_nonempty_of_next_ne L (sent k) (Ls k) (hch k hk) hne
    have hcur : L.nxt (sent k) ∈ Ls k := chain_head_mem _ _ _ _ (hch k hk) hxs
    exact (find_block_go_sound L.nxt m (sent k) asize (Ls k) (hch k hk) 51
      (L.nxt (sent k)) hcur).2 a ha

/-- Witness for `find_fit_safety`: in the list state `LC10` (only
bucket 2 is populated, with nodes 2000 of size 40 and 2024 of size 120),
`find_fit(100)` starts at bucket 1, skips it as empty, scans bucket 2 and
returns 2024, a proper node with size 120 ≥ 100. -/
theorem find_fit_safety_witness :
    (∃ i, i < 12 ∧ 2024 ∈ LsC10 i) ∧
    100 ≤ GET_SIZE (memC10 (HDRP 2024)) ∧
    (∀ j, j < 12 → 2024 ≠ sentC10 j) ∧
    (∀ i, i < 12 → LC10.nxt (sentC10 i) ≠ sentC10 i →
      ∀ a, a ∈ find_block_reads LC10.nxt memC10 (sentC10 i) 100
        (LC10.nxt (sentC10 i)) 51 → a ∈ LsC10 i) :=
  find_fit_safety LC10 memC10 sentC10 100 2024 LsC10 (by decide) (by decide) (by decide)
